import Mathlib

/-!
Shallow embedding of the eth-encrypt core (src/index.js, src/utils/fs-utils.js,
src/utils/config.js, and the encrypt command of src/cli.js).

Bytes are modelled as natural numbers below 256, buffers as `List Nat`, and
JavaScript strings as `List Char`.  Node's AES-256-CTR cipher is modelled as an
uninterpreted keystream function of the key and the initialization vector:
counter mode XORs keystream byte `i` into data byte `i`, the output length
equals the input length, and `final()` contributes no bytes.  Fallible
operations return `Option`, with `none` standing for a raised exception.
-/

namespace EthEncrypt

/-- Configuration constant from src/utils/config.js: key size in bytes. -/
def ENCRYPTION_KEY_SIZE : Nat := 32

/-- Configuration constant from src/utils/config.js: IV (note) size in bytes. -/
def ENCRYPTION_IV_SIZE : Nat := 16

/-- Value of one hex digit, exactly the characters Node's hex decoder accepts
(digits, lowercase a-f, uppercase A-F). -/
def hexVal (c : Char) : Option Nat :=
  let n := c.toNat
  if 48 ≤ n ∧ n ≤ 57 then some (n - 48)
  else if 97 ≤ n ∧ n ≤ 102 then some (n - 87)
  else if 65 ≤ n ∧ n ≤ 70 then some (n - 55)
  else none

/-- Node `Buffer.from(s, "hex")`: decode two characters at a time, stopping at
the first invalid character; a trailing unpaired character is dropped.  This
never raises, so the result may be shorter than `s.length / 2`. -/
def hexDecode : List Char → List Nat
  | [] => []
  | [_] => []
  | c1 :: c2 :: rest =>
    match hexVal c1, hexVal c2 with
    | some hi, some lo => (16 * hi + lo) :: hexDecode rest
    | _, _ => []

/-- One lowercase hex digit, as Node `buf.toString("hex")` produces. -/
def hexDigit (n : Nat) : Char :=
  if n < 10 then Char.ofNat (48 + n) else Char.ofNat (87 + n)

/-- Node `buf.toString("hex")`: two lowercase hex digits per byte. -/
def hexEncode (l : List Nat) : List Char :=
  l.foldr (fun b acc => hexDigit (b / 16) :: hexDigit (b % 16) :: acc) []

/-- JavaScript `s.replace("0x", "")` with a string pattern: remove the first
occurrence of the substring "0x" anywhere in `s` (not only a leading prefix);
if "0x" does not occur, return `s` unchanged. -/
def removeFirst0x : List Char → List Char
  | [] => []
  | [c] => [c]
  | c1 :: c2 :: rest =>
    if c1 = '0' ∧ c2 = 'x' then rest
    else c1 :: removeFirst0x (c2 :: rest)

/-- src/index.js `signedEncryptionNoteToKey`: drop the first "0x", keep at most
the first `ENCRYPTION_KEY_SIZE * 2 = 64` characters (`substring(0, 64)` clamps),
and hex-decode them.  It never raises; with fewer than 64 hex characters the
returned key is silently shorter than 32 bytes. -/
def signedEncryptionNoteToKey (signedEncryptionNote : List Char) : List Nat :=
  hexDecode ((removeFirst0x signedEncryptionNote).take (ENCRYPTION_KEY_SIZE * 2))

/-- An AES-256-CTR keystream, abstract in the cipher: byte `i` of the keystream
depends only on the key, the IV, and the absolute position `i`. -/
abbrev Keystream := List Nat → List Nat → Nat → Nat

/-- Counter-mode XOR of keystream `f` into a byte list, starting at absolute
position `i`.  The keystream byte is masked to one byte, as real keystream
bytes are. -/
def ctrXor (f : Nat → Nat) : Nat → List Nat → List Nat
  | _, [] => []
  | i, b :: rest => (b ^^^ f i % 256) :: ctrXor f (i + 1) rest

/-- src/index.js `encryptBytes` composed with `_createCipher`:
`createCipheriv("aes-256-ctr", key, iv)` raises (`none`) unless the key is
exactly 32 bytes and the IV exactly 16 bytes; otherwise the result is the raw
note bytes followed by `cipher.update(data)` (`cipher.final()` is empty in
counter mode). -/
def encryptBytes (ks : Keystream) (data : List Nat) (note sig : List Char) :
    Option (List Nat) :=
  if (signedEncryptionNoteToKey sig).length = ENCRYPTION_KEY_SIZE ∧
      (hexDecode note).length = ENCRYPTION_IV_SIZE then
    some (hexDecode note ++
      ctrXor (ks (signedEncryptionNoteToKey sig) (hexDecode note)) 0 data)
  else none

/-- src/index.js `decryptBytes` composed with `_createDecipher`: the IV is the
first 16 bytes of the payload (`Buffer.from` on a Buffer copies the raw bytes,
ignoring the "hex" argument), the remainder is run through the decipher, which
in counter mode is the same XOR as encryption. -/
def decryptBytes (ks : Keystream) (data : List Nat) (sig : List Char) :
    Option (List Nat) :=
  if (signedEncryptionNoteToKey sig).length = ENCRYPTION_KEY_SIZE ∧
      (data.take ENCRYPTION_IV_SIZE).length = ENCRYPTION_IV_SIZE then
    some (ctrXor (ks (signedEncryptionNoteToKey sig) (data.take ENCRYPTION_IV_SIZE)) 0
      (data.drop ENCRYPTION_IV_SIZE))
  else none

/-- src/index.js `readEncryptionNoteFromEncryptedBytes`: hex of
`data.slice(0, 16)` (shorter if `data` is shorter; `slice` never raises). -/
def readEncryptionNoteFromEncryptedBytes (data : List Nat) : List Char :=
  hexEncode (data.take ENCRYPTION_IV_SIZE)

/-- src/utils/fs-utils.js `partialReadSync(path, start, end)`: guard the
arguments, allocate a zero-filled buffer of `end - start` bytes, let `readSync`
copy the available file bytes into its front (fewer than requested near the end
of the file — the return value of `readSync` is ignored and the tail stays
zero), close, return.  `none` models a raised exception: the explicit guard
throw, and the `end - start == 0` branch whose `new Buffer.from(0)` raises a
TypeError. -/
def partialReadSync (file : List Nat) (start fin : Int) : Option (List Nat) :=
  if start < 0 ∨ fin < 0 ∨ fin < start ∨ 0x3fffffff < fin - start then none
  else if fin - start = 0 then none
  else
    let len := (fin - start).toNat
    let chunk := (file.drop start.toNat).take len
    some (chunk ++ List.replicate (len - chunk.length) 0)

/-- src/index.js `readEncryptionNoteFromFile`: hex of
`partialReadSync(filename, 0, 16)`. -/
def readEncryptionNoteFromFile (file : List Nat) : Option (List Char) :=
  (partialReadSync file 0 (ENCRYPTION_IV_SIZE : Int)).map hexEncode

/-- State of src/utils/fs-utils.js `PrependInitializationVector`: the IV to
prepend and the "header already emitted" flag. -/
structure PrependInitializationVector where
  iv : List Nat
  prepended : Bool

/-- The `_transform(chunk, encoding, cb)` method: on the first callback push
the IV — whatever the chunk is, an empty chunk included — then always push the
chunk itself. -/
def PrependInitializationVector.transform (s : PrependInitializationVector)
    (chunk : List Nat) : PrependInitializationVector × List Nat :=
  if s.prepended then (s, chunk)
  else ({ s with prepended := true }, s.iv ++ chunk)

/-- Run the transform over a list of chunks, concatenating everything pushed.
The stream framework calls `_transform` once per delivered chunk and the class
overrides no `_flush`, so an empty chunk list produces no output at all. -/
def pivRunAux : PrependInitializationVector → List (List Nat) → List Nat
  | _, [] => []
  | s, c :: cs => (s.transform c).2 ++ pivRunAux (s.transform c).1 cs

/-- Output of a fresh `PrependInitializationVector(iv)` fed `chunks`. -/
def pivRun (iv : List Nat) (chunks : List (List Nat)) : List Nat :=
  pivRunAux { iv := iv, prepended := false } chunks

/-- The cipher Transform as piped in `encryptFileAsStream`: each chunk the read
stream delivers comes out as `cipher.update(chunk)` (same length, keystream
advancing across chunks).  The flush pushes `cipher.final()`, which is empty in
counter mode, and Node drops zero-length pushes in non-object mode, so an empty
input delivers no chunks downstream. -/
def cipherChunks (f : Nat → Nat) : Nat → List (List Nat) → List (List Nat)
  | _, [] => []
  | i, c :: cs => ctrXor f i c :: cipherChunks f (i + c.length) cs

/-- src/index.js `encryptFileAsStream`, at the level of delivered chunks: the
read stream yields `chunks` (never a zero-length one; an empty file yields
none), the cipher transforms them, `PrependInitializationVector` frames them,
and the concatenated pushes are what reaches the output file.  Cipher creation
raises (`none`) on a bad key or IV size, before the write stream is opened. -/
def encryptFileAsStream (ks : Keystream) (note sig : List Char)
    (chunks : List (List Nat)) : Option (List Nat) :=
  if (signedEncryptionNoteToKey sig).length = ENCRYPTION_KEY_SIZE ∧
      (hexDecode note).length = ENCRYPTION_IV_SIZE then
    some (pivRun (hexDecode note)
      (cipherChunks (ks (signedEncryptionNoteToKey sig) (hexDecode note)) 0 chunks))
  else none

/-- Observable steps of the encrypt command, in the order src/cli.js
`processFileEncryption` and src/index.js `signEncryptionNote` /
`encryptFileAsStream` perform them.  Console output is not an output artifact
and is not modelled. -/
inductive EncEvent where
  | noteGenerated
  | signRequested
  | signSucceeded
  | signFailed
  | outputPathResolved
  | readStreamOpened
  | cipherCreated
  | cipherCreateFailed
  | writeStreamOpened
  | wroteOutput
  deriving DecidableEq

/-- Steps of src/index.js `encryptFileAsStream`: open the read stream, create
the cipher (`createCipheriv` may raise, in which case nothing further runs),
construct the transform, open the write stream, pipe. -/
def encryptFileAsStreamEvents (cipherOk : Bool) : List EncEvent :=
  EncEvent.readStreamOpened ::
    (if cipherOk then
      [EncEvent.cipherCreated, EncEvent.writeStreamOpened, EncEvent.wroteOutput]
    else [EncEvent.cipherCreateFailed])

/-- Steps of src/cli.js `processFileEncryption`: generate the note, request the
signature; only the success callback resolves the output path and calls
`encryptFileAsStream`, while the error callback only logs.  `signResult` is the
outcome of the external signer round trip. -/
def processFileEncryptionEvents (signResult : Option (List Char))
    (cipherOk : Bool) : List EncEvent :=
  EncEvent.noteGenerated :: EncEvent.signRequested ::
    (match signResult with
     | some _ => EncEvent.signSucceeded :: EncEvent.outputPathResolved ::
         encryptFileAsStreamEvents cipherOk
     | none => [EncEvent.signFailed])

/-- File-descriptor operations, for tracking handle release. -/
inductive FsOp where
  | openFd
  | readFd
  | closeFd
  deriving DecidableEq

/-- The fd operations src/utils/fs-utils.js `partialReadSync` performs after
its guards pass: `openSync`, `readSync`, `closeSync`, with no try/finally.
When `readSync` raises (`readOk = false`) the exception propagates and
`closeSync` is never reached. -/
def partialReadSyncOps (readOk : Bool) : List FsOp :=
  if readOk then [FsOp.openFd, FsOp.readFd, FsOp.closeFd]
  else [FsOp.openFd, FsOp.readFd]

/-- Number of file descriptors still open after a sequence of fd operations. -/
def openHandlesAfter (ops : List FsOp) : Nat :=
  ops.foldl
    (fun n op =>
      match op with
      | FsOp.openFd => n + 1
      | FsOp.closeFd => n - 1
      | FsOp.readFd => n) 0

/-- Removal of the first occurrence of the substring "0x", phrased the way the
claim words it: find the first position whose adjacent character pair is
("0", "x") and splice it out; used to compare against the embedding of the
source's `replace("0x", "")`. -/
def specStrip0x (s : List Char) : List Char :=
  match (s.zip s.tail).findIdx? (fun q => q.1 == '0' && q.2 == 'x') with
  | some i => s.take i ++ s.drop (i + 2)
  | none => s

/-- Concrete keystream used in witnesses: the all-zero keystream. -/
def ksZero : Keystream := fun _ _ _ => 0

/-- Concrete 32-character note of zeros (decodes to 16 zero bytes). -/
def note0 : List Char := List.replicate 32 '0'

/-- Concrete 64-hex-character signature (decodes to 32 bytes of 0xaa). -/
def sigA : List Char := List.replicate 64 'a'

/-! Helper lemmas about the embedded operations. -/

theorem ctrXor_length (f : Nat → Nat) : ∀ (i : Nat) (l : List Nat),
    (ctrXor f i l).length = l.length := by
  intro i l
  induction l generalizing i with
  | nil => rfl
  | cons b t ih => simp [ctrXor, ih]

theorem ctrXor_ctrXor (f : Nat → Nat) : ∀ (i : Nat) (l : List Nat),
    ctrXor f i (ctrXor f i l) = l := by
  intro i l
  induction l generalizing i with
  | nil => rfl
  | cons b t ih =>
    simp only [ctrXor, ih]
    rw [Nat.xor_assoc, Nat.xor_self, Nat.xor_zero]

theorem hexVal_lt_sixteen (c : Char) (v : Nat) (h : hexVal c = some v) : v < 16 := by
  simp only [hexVal] at h
  split_ifs at h with h1 h2 h3 <;> simp only [Option.some.injEq] at h <;> omega

theorem hexDecode_mem_lt : ∀ (l : List Char) (b : Nat), b ∈ hexDecode l → b < 256
  | [], b, h => by simp [hexDecode] at h
  | [c], b, h => by simp [hexDecode] at h
  | c1 :: c2 :: rest, b, h => by
    cases hv1 : hexVal c1 with
    | none => simp [hexDecode, hv1] at h
    | some v1 =>
      cases hv2 : hexVal c2 with
      | none => simp [hexDecode, hv1, hv2] at h
      | some v2 =>
        simp only [hexDecode, hv1, hv2, List.mem_cons] at h
        rcases h with h | h
        · have hb1 := hexVal_lt_sixteen c1 v1 hv1
          have hb2 := hexVal_lt_sixteen c2 v2 hv2
          omega
        · exact hexDecode_mem_lt rest b h

theorem hexDecode_length_le : ∀ l : List Char, (hexDecode l).length ≤ l.length / 2
  | [] => by simp [hexDecode]
  | [c] => by simp [hexDecode]
  | c1 :: c2 :: rest => by
    cases hv1 : hexVal c1 with
    | none => simp [hexDecode, hv1]
    | some v1 =>
      cases hv2 : hexVal c2 with
      | none => simp [hexDecode, hv1, hv2]
      | some v2 =>
        have ih := hexDecode_length_le rest
        simp only [hexDecode, hv1, hv2, List.length_cons]
        omega

theorem hexDecode_length_hex : ∀ l : List Char,
    (∀ c ∈ l, (hexVal c).isSome = true) → (hexDecode l).length = l.length / 2
  | [], _ => by simp [hexDecode]
  | [c], _ => by simp [hexDecode]
  | c1 :: c2 :: rest, h => by
    have h1 : (hexVal c1).isSome = true := h c1 (by simp)
    have h2 : (hexVal c2).isSome = true := h c2 (by simp)
    obtain ⟨v1, hv1⟩ := Option.isSome_iff_exists.mp h1
    obtain ⟨v2, hv2⟩ := Option.isSome_iff_exists.mp h2
    have ih := hexDecode_length_hex rest (fun c hc => h c (by simp [hc]))
    simp only [hexDecode, hv1, hv2, List.length_cons, ih]
    omega

theorem removeFirst0x_append_ff (l : List Char) :
    removeFirst0x (l ++ ['f', 'f']) = removeFirst0x l ++ ['f', 'f'] := by
  induction l with
  | nil => decide
  | cons c1 t ih =>
    cases t with
    | nil =>
      have hfx : ¬(c1 = '0' ∧ ('f' : Char) = 'x') := by
        rintro ⟨-, h⟩; exact absurd h (by decide)
      simp [removeFirst0x, hfx]
    | cons c2 rest =>
      by_cases h : c1 = '0' ∧ c2 = 'x'
      · simp [removeFirst0x, h]
      · simp only [List.cons_append, removeFirst0x, if_neg h]
        rw [List.cons_append] at ih
        simp [ih]

theorem readEncryptionNoteFromFile_eq (file : List Nat) :
    readEncryptionNoteFromFile file =
      some (hexEncode (file.take 16 ++ List.replicate (16 - (file.take 16).length) 0)) := by
  simp only [readEncryptionNoteFromFile, partialReadSync, ENCRYPTION_IV_SIZE]
  have h16 : Int.toNat 16 = 16 := rfl
  norm_num [h16]

theorem readEncryptionNoteFromFile_congr (f1 f2 : List Nat)
    (h : f1.take 16 = f2.take 16) :
    readEncryptionNoteFromFile f1 = readEncryptionNoteFromFile f2 := by
  rw [readEncryptionNoteFromFile_eq, readEncryptionNoteFromFile_eq, h]

theorem readEncryptionNoteFromFile_of_le (f : List Nat) (h : 16 ≤ f.length) :
    readEncryptionNoteFromFile f = some (hexEncode (f.take 16)) := by
  rw [readEncryptionNoteFromFile_eq]
  have hl : (f.take 16).length = 16 := by
    rw [List.length_take]; omega
  rw [hl]
  simp

theorem removeFirst0x_eq_specStrip0x : ∀ s : List Char,
    removeFirst0x s = specStrip0x s := by
  intro s
  induction s with
  | nil => rfl
  | cons c1 t ih =>
    cases t with
    | nil => rfl
    | cons c2 rest =>
      by_cases h : c1 = '0' ∧ c2 = 'x'
      · obtain ⟨h1, h2⟩ := h
        subst h1; subst h2
        simp [removeFirst0x, specStrip0x]
      · have hq : ((c1 == '0') && (c2 == 'x')) = false := by
          by_cases hc1 : c1 = '0'
          · have hc2 : ¬ c2 = 'x' := fun hc => h ⟨hc1, hc⟩
            simp [hc2]
          · simp [hc1]
        simp only [removeFirst0x, if_neg h, ih, specStrip0x]
        simp only [List.zip_cons_cons, List.tail_cons, List.findIdx?_cons, hq,
          Bool.false_eq_true, if_false, List.findIdx?_succ]
        cases hfi : List.findIdx? (fun q : Char × Char => q.1 == '0' && q.2 == 'x')
            ((c2 :: rest).zip rest) with
        | none => simp
        | some i =>
          have hmap : Option.map (fun j => j + 1) (some i) = some (i + 1) := rfl
          rw [hmap]
          show c1 :: (List.take i (c2 :: rest) ++ List.drop (i + 2) (c2 :: rest)) =
            List.take (i + 1) (c1 :: c2 :: rest) ++ List.drop (i + 1 + 2) (c1 :: c2 :: rest)
          rw [List.take_succ_cons]
          have hdrop : (c1 :: c2 :: rest).drop (i + 1 + 2) = (c2 :: rest).drop (i + 2) := rfl
          rw [hdrop]
          simp

theorem take_closed_of_bounded {α : Type} (tr : List α) (a b : α)
    (h : ∀ n, n ≤ tr.length → (b ∈ tr.take n → a ∈ tr.take n)) :
    ∀ n, b ∈ tr.take n → a ∈ tr.take n := by
  intro n hb
  by_cases hn : n ≤ tr.length
  · exact h n hn hb
  · have he : tr.take n = tr := List.take_of_length_le (by omega)
    rw [he] at hb ⊢
    have h2 := h tr.length (Nat.le_refl _)
    rw [List.take_length] at h2
    exact h2 hb

/-! Claim theorems. -/

/-- C1: for every plaintext byte sequence, every note decoding to 16 bytes and
every signature string whose derived key is a full 32 bytes, decrypting the
buffer produced by `encryptBytes` with `decryptBytes` under the same signature
returns exactly the plaintext. -/
theorem roundTrip_decrypt_encrypt (ks : Keystream) (data : List Nat)
    (note sig : List Char)
    (hkey : (signedEncryptionNoteToKey sig).length = ENCRYPTION_KEY_SIZE)
    (hnote : (hexDecode note).length = ENCRYPTION_IV_SIZE) :
    (encryptBytes ks data note sig).bind (fun ct => decryptBytes ks ct sig) =
      some data := by
  have hpos : (signedEncryptionNoteToKey sig).length = ENCRYPTION_KEY_SIZE ∧
      (hexDecode note).length = ENCRYPTION_IV_SIZE := ⟨hkey, hnote⟩
  unfold encryptBytes
  rw [if_pos hpos]
  have hbind : (some (hexDecode note ++
        ctrXor (ks (signedEncryptionNoteToKey sig) (hexDecode note)) 0 data)).bind
      (fun ct => decryptBytes ks ct sig) =
      decryptBytes ks (hexDecode note ++
        ctrXor (ks (signedEncryptionNoteToKey sig) (hexDecode note)) 0 data) sig := rfl
  rw [hbind]
  unfold decryptBytes
  rw [List.take_left' hnote, List.drop_left' hnote, if_pos hpos, ctrXor_ctrXor]

/-- Witness for C1 at a concrete plaintext, note and signature. -/
theorem roundTrip_decrypt_encrypt_witness :
    (encryptBytes ksZero [104, 105] note0 sigA).bind
      (fun ct => decryptBytes ksZero ct sigA) = some [104, 105] :=
  roundTrip_decrypt_encrypt ksZero [104, 105] note0 sigA (by decide) (by decide)

/-- C2: the claim says `signedEncryptionNoteToKey` fails with
`MalformedKeyMaterial` when fewer than 64 hex characters remain after prefix
stripping.  The source has no such check: on the signature "0xabcd" it silently
returns the 2-byte key [0xab, 0xcd] instead of raising. -/
theorem signedEncryptionNoteToKey_shortSig_silent :
    signedEncryptionNoteToKey ['0', 'x', 'a', 'b', 'c', 'd'] = [171, 205] ∧
    (signedEncryptionNoteToKey ['0', 'x', 'a', 'b', 'c', 'd']).length <
      ENCRYPTION_KEY_SIZE := by decide

/-- C3: the claim says a zero-length plaintext produces a 16-byte payload in
both variants.  True for the buffer variant, and the transform does emit the
header when its first chunk callback carries an empty chunk; but for an empty
input the stream delivers no chunks at all (counter-mode `final()` is empty and
zero-length pushes are dropped), `_transform` never runs, and the streaming
variant writes 0 bytes, not 16. -/
theorem streamEncrypt_empty_plaintext (ks : Keystream) (note sig : List Char)
    (hkey : (signedEncryptionNoteToKey sig).length = ENCRYPTION_KEY_SIZE)
    (hnote : (hexDecode note).length = ENCRYPTION_IV_SIZE) :
    encryptBytes ks [] note sig = some (hexDecode note) ∧
    (PrependInitializationVector.transform ⟨hexDecode note, false⟩ []).2 =
      hexDecode note ∧
    encryptFileAsStream ks note sig [] = some [] := by
  refine ⟨?_, ?_, ?_⟩
  · unfold encryptBytes
    rw [if_pos ⟨hkey, hnote⟩]
    simp [ctrXor]
  · simp [PrependInitializationVector.transform]
  · unfold encryptFileAsStream
    rw [if_pos ⟨hkey, hnote⟩]
    rfl

/-- Witness for C3 at a concrete note and signature. -/
theorem streamEncrypt_empty_plaintext_witness :
    encryptBytes ksZero [] note0 sigA = some (hexDecode note0) ∧
    (PrependInitializationVector.transform ⟨hexDecode note0, false⟩ []).2 =
      hexDecode note0 ∧
    encryptFileAsStream ksZero note0 sigA [] = some [] :=
  streamEncrypt_empty_plaintext ksZero note0 sigA (by decide) (by decide)

/-- C4: every payload `encryptBytes` produces has length exactly 16 plus the
plaintext length: a 16-byte note prefix plus same-length ciphertext, with no
padding, trailer or authentication tag. -/
theorem encryptBytes_length (ks : Keystream) (data : List Nat)
    (note sig : List Char) (payload : List Nat)
    (h : encryptBytes ks data note sig = some payload) :
    payload.length = ENCRYPTION_IV_SIZE + data.length := by
  unfold encryptBytes at h
  by_cases hc : (signedEncryptionNoteToKey sig).length = ENCRYPTION_KEY_SIZE ∧
      (hexDecode note).length = ENCRYPTION_IV_SIZE
  · rw [if_pos hc] at h
    obtain ⟨hkey, hnote⟩ := hc
    injection h with h2
    subst h2
    simp [List.length_append, ctrXor_length, hnote]
  · rw [if_neg hc] at h
    exact absurd h (by simp)

/-- Witness for C4 at a concrete plaintext, note and signature. -/
theorem encryptBytes_length_witness :
    (List.replicate 16 (0 : Nat) ++ [1, 2, 3]).length =
      ENCRYPTION_IV_SIZE + ([1, 2, 3] : List Nat).length :=
  encryptBytes_length ksZero [1, 2, 3] note0 sigA
    (List.replicate 16 0 ++ [1, 2, 3]) (by decide)

/-- C5: the first 16 bytes of every payload `encryptBytes` produces equal the
raw note, both note readers return exactly those 16 bytes in hex, and neither
reader depends on any byte past position 16 (replacing everything after the
first 16 bytes changes nothing). -/
theorem encryptBytes_framing (ks : Keystream) (data : List Nat)
    (note sig : List Char) (payload : List Nat)
    (h : encryptBytes ks data note sig = some payload) :
    payload.take ENCRYPTION_IV_SIZE = hexDecode note ∧
    readEncryptionNoteFromEncryptedBytes payload = hexEncode (hexDecode note) ∧
    readEncryptionNoteFromFile payload = some (hexEncode (hexDecode note)) ∧
    ∀ rest2 : List Nat,
      readEncryptionNoteFromEncryptedBytes
          (payload.take ENCRYPTION_IV_SIZE ++ rest2) =
        readEncryptionNoteFromEncryptedBytes payload ∧
      readEncryptionNoteFromFile (payload.take ENCRYPTION_IV_SIZE ++ rest2) =
        readEncryptionNoteFromFile payload := by
  unfold encryptBytes at h
  by_cases hc : (signedEncryptionNoteToKey sig).length = ENCRYPTION_KEY_SIZE ∧
      (hexDecode note).length = ENCRYPTION_IV_SIZE
  · rw [if_pos hc] at h
    obtain ⟨hkey, hnote⟩ := hc
    injection h with h2
    subst h2
    simp only [ENCRYPTION_IV_SIZE] at hnote ⊢
    have htake : (hexDecode note ++
        ctrXor (ks (signedEncryptionNoteToKey sig) (hexDecode note)) 0 data).take 16 =
        hexDecode note := List.take_left' hnote
    have hlen : 16 ≤ (hexDecode note ++
        ctrXor (ks (signedEncryptionNoteToKey sig) (hexDecode note)) 0 data).length := by
      rw [List.length_append]
      omega
    refine ⟨htake, ?_, ?_, ?_⟩
    · unfold readEncryptionNoteFromEncryptedBytes
      simp only [ENCRYPTION_IV_SIZE]
      rw [htake]
    · rw [readEncryptionNoteFromFile_of_le _ hlen, htake]
    · intro rest2
      constructor
      · unfold readEncryptionNoteFromEncryptedBytes
        simp only [ENCRYPTION_IV_SIZE, htake, List.take_left' hnote]
      · exact readEncryptionNoteFromFile_congr _ _
          (by rw [htake, List.take_left' hnote])
  · rw [if_neg hc] at h
    exact absurd h (by simp)

/-- Witness for C5 at a concrete plaintext, note and signature. -/
theorem encryptBytes_framing_witness :
    (List.replicate 16 (0 : Nat) ++ [9]).take ENCRYPTION_IV_SIZE = hexDecode note0 ∧
    readEncryptionNoteFromEncryptedBytes (List.replicate 16 (0 : Nat) ++ [9]) =
      hexEncode (hexDecode note0) ∧
    readEncryptionNoteFromFile (List.replicate 16 (0 : Nat) ++ [9]) =
      some (hexEncode (hexDecode note0)) ∧
    ∀ rest2 : List Nat,
      readEncryptionNoteFromEncryptedBytes
          ((List.replicate 16 (0 : Nat) ++ [9]).take ENCRYPTION_IV_SIZE ++ rest2) =
        readEncryptionNoteFromEncryptedBytes (List.replicate 16 (0 : Nat) ++ [9]) ∧
      readEncryptionNoteFromFile
          ((List.replicate 16 (0 : Nat) ++ [9]).take ENCRYPTION_IV_SIZE ++ rest2) =
        readEncryptionNoteFromFile (List.replicate 16 (0 : Nat) ++ [9]) :=
  encryptBytes_framing ksZero [9] note0 sigA
    (List.replicate 16 0 ++ [9]) (by decide)

/-- C6: key derivation is deterministic (it is a pure function of the
signature text) and only the first 64 post-strip hex characters matter: when at
least 64 hex characters remain after stripping, appending "ff" does not change
the derived key, and the key is a full 32 bytes. -/
theorem signedEncryptionNoteToKey_truncation (sig : List Char)
    (hlen : 64 ≤ (removeFirst0x sig).length)
    (hhex : ∀ c ∈ (removeFirst0x sig).take 64, (hexVal c).isSome = true) :
    signedEncryptionNoteToKey (sig ++ ['f', 'f']) = signedEncryptionNoteToKey sig ∧
    (signedEncryptionNoteToKey sig).length = ENCRYPTION_KEY_SIZE := by
  constructor
  · unfold signedEncryptionNoteToKey
    rw [removeFirst0x_append_ff]
    congr 1
    exact List.take_append_of_le_length hlen
  · unfold signedEncryptionNoteToKey
    show (hexDecode ((removeFirst0x sig).take 64)).length = 32
    rw [hexDecode_length_hex _ hhex, List.length_take]
    omega

/-- Witness for C6 at a concrete 64-hex-character signature. -/
theorem signedEncryptionNoteToKey_truncation_witness :
    signedEncryptionNoteToKey (sigA ++ ['f', 'f']) = signedEncryptionNoteToKey sigA ∧
    (signedEncryptionNoteToKey sigA).length = ENCRYPTION_KEY_SIZE :=
  signedEncryptionNoteToKey_truncation sigA (by decide) (by decide)

/-- C7 counterexample: the claim says `readEncryptionNoteFromFile` fails with
`InvalidInput` whenever the file is shorter than 16 bytes; on the 5-byte file
[1,2,3,4,5] it instead succeeds, returning the available bytes zero-padded to
16 (the return value of `readSync` is ignored and the zero-allocated buffer
keeps its tail). -/
theorem readEncryptionNoteFromFile_short_counterexample :
    readEncryptionNoteFromFile [1, 2, 3, 4, 5] =
      some (hexEncode [1, 2, 3, 4, 5, 0, 0, 0, 0, 0, 0, 0, 0, 0, 0, 0]) := by
  decide

/-- C7 as amended: `readEncryptionNoteFromFile` performs a bounded read of
exactly bytes [0, 16) — its result depends only on the first 16 bytes of the
file — and on a file shorter than 16 bytes it does not fail but returns the
file's bytes zero-padded to 16. -/
theorem readEncryptionNoteFromFile_bounded :
    (∀ f1 f2 : List Nat, f1.take ENCRYPTION_IV_SIZE = f2.take ENCRYPTION_IV_SIZE →
      readEncryptionNoteFromFile f1 = readEncryptionNoteFromFile f2) ∧
    (∀ file : List Nat, file.length < ENCRYPTION_IV_SIZE →
      readEncryptionNoteFromFile file =
        some (hexEncode (file ++ List.replicate (ENCRYPTION_IV_SIZE - file.length) 0))) ∧
    (∀ file : List Nat, ENCRYPTION_IV_SIZE ≤ file.length →
      readEncryptionNoteFromFile file = some (hexEncode (file.take ENCRYPTION_IV_SIZE))) := by
  refine ⟨?_, ?_, ?_⟩
  · intro f1 f2 h
    exact readEncryptionNoteFromFile_congr f1 f2 h
  · intro file h
    simp only [ENCRYPTION_IV_SIZE] at h ⊢
    rw [readEncryptionNoteFromFile_eq]
    have ht : file.take 16 = file := List.take_of_length_le (by omega)
    rw [ht]
  · intro file h
    exact readEncryptionNoteFromFile_of_le file h

/-- Witness for C7's amended statement at concrete files. -/
theorem readEncryptionNoteFromFile_bounded_witness :
    readEncryptionNoteFromFile (List.replicate 20 (7 : Nat)) =
      readEncryptionNoteFromFile (List.replicate 16 (7 : Nat) ++ [9]) ∧
    readEncryptionNoteFromFile [5] =
      some (hexEncode ([5] ++ List.replicate 15 0)) ∧
    readEncryptionNoteFromFile (List.range 20) =
      some (hexEncode ((List.range 20).take ENCRYPTION_IV_SIZE)) :=
  ⟨readEncryptionNoteFromFile_bounded.1 (List.replicate 20 7)
      (List.replicate 16 7 ++ [9]) (by decide),
   readEncryptionNoteFromFile_bounded.2.1 [5] (by decide),
   readEncryptionNoteFromFile_bounded.2.2 (List.range 20) (by decide)⟩

/-- C8: in the encrypt command the steps are strictly ordered — every prefix of
the event trace containing cipher creation already contains the successful
signature, every prefix containing the opening of or a write to the output
already contains cipher creation, and when the signer fails no output event
occurs at all. -/
theorem encryption_sequencing (signResult : Option (List Char)) (cipherOk : Bool) :
    (∀ n, EncEvent.cipherCreated ∈ (processFileEncryptionEvents signResult cipherOk).take n →
      EncEvent.signSucceeded ∈ (processFileEncryptionEvents signResult cipherOk).take n) ∧
    (∀ n, EncEvent.writeStreamOpened ∈ (processFileEncryptionEvents signResult cipherOk).take n →
      EncEvent.cipherCreated ∈ (processFileEncryptionEvents signResult cipherOk).take n) ∧
    (∀ n, EncEvent.wroteOutput ∈ (processFileEncryptionEvents signResult cipherOk).take n →
      EncEvent.cipherCreated ∈ (processFileEncryptionEvents signResult cipherOk).take n) ∧
    (signResult = none →
      EncEvent.writeStreamOpened ∉ processFileEncryptionEvents signResult cipherOk ∧
      EncEvent.wroteOutput ∉ processFileEncryptionEvents signResult cipherOk) := by
  cases signResult with
  | none =>
    cases cipherOk <;>
      exact ⟨take_closed_of_bounded _ _ _ (by decide),
        take_closed_of_bounded _ _ _ (by decide),
        take_closed_of_bounded _ _ _ (by decide),
        fun _ => by decide⟩
  | some s =>
    have he : processFileEncryptionEvents (some s) = processFileEncryptionEvents (some []) := rfl
    rw [he]
    cases cipherOk <;>
      exact ⟨take_closed_of_bounded _ _ _ (by decide),
        take_closed_of_bounded _ _ _ (by decide),
        take_closed_of_bounded _ _ _ (by decide),
        fun hcontra => nomatch hcontra⟩

/-- Witness for C8: a concrete trace where the cipher is created after the
signature succeeded, and the failed-signer trace with no output events. -/
theorem encryption_sequencing_witness :
    EncEvent.signSucceeded ∈ (processFileEncryptionEvents (some ['a']) true).take 6 ∧
    EncEvent.writeStreamOpened ∉ processFileEncryptionEvents none true :=
  ⟨(encryption_sequencing (some ['a']) true).1 6 (by decide),
   ((encryption_sequencing none true).2.2.2 rfl).1⟩

/-- C9: the claim says the fd opened by `partialReadSync` is closed on every
exit path.  On the success path it is; but when `readSync` raises there is no
try/finally, `closeSync` is never reached, and the descriptor leaks. -/
theorem partialReadSync_fd_release :
    openHandlesAfter (partialReadSyncOps true) = 0 ∧
    openHandlesAfter (partialReadSyncOps false) = 1 := by decide

/-- C10: for every input string, `signedEncryptionNoteToKey` totally returns a
byte list (each entry below 256) of at most 32 bytes — possibly shorter or
empty, never an error — and its behavior is exactly: remove the first
occurrence of the substring "0x" anywhere in the string, take at most the next
64 characters, and hex-decode them up to the first invalid character. -/
theorem signedEncryptionNoteToKey_total_behavior (sig : List Char) :
    (signedEncryptionNoteToKey sig).all (fun b => decide (b < 256)) = true ∧
    (signedEncryptionNoteToKey sig).length ≤ ENCRYPTION_KEY_SIZE ∧
    signedEncryptionNoteToKey sig =
      hexDecode ((specStrip0x sig).take (ENCRYPTION_KEY_SIZE * 2)) := by
  refine ⟨?_, ?_, ?_⟩
  · rw [List.all_eq_true]
    intro b hb
    simpa using hexDecode_mem_lt _ b hb
  · have h1 := hexDecode_length_le ((removeFirst0x sig).take (ENCRYPTION_KEY_SIZE * 2))
    have h2 : ((removeFirst0x sig).take (ENCRYPTION_KEY_SIZE * 2)).length ≤
        ENCRYPTION_KEY_SIZE * 2 := by
      rw [List.length_take]
      exact Nat.min_le_left _ _
    unfold signedEncryptionNoteToKey
    simp only [ENCRYPTION_KEY_SIZE] at h1 h2 ⊢
    omega
  · unfold signedEncryptionNoteToKey
    rw [removeFirst0x_eq_specStrip0x]

end EthEncrypt
